import Mathlib

/-!
Verification of the `oxur/sdif` repository against its design specification.

The repository's only source file is `src/sdif-sys/wrapper.h`, a 14-line C
header whose sole content is an include guard around `#include <sdif.h>`.
The first part of this file embeds that header and the fragment of the C
preprocessor needed to reason about it.  The second part embeds the SDIF
codec described by the specification (binary reader primitives, the
frame/matrix codec, the tag registry and the session layer), which has no
implementation under `src/`, so those definitions are modelled from the
specification's own words.
-/

namespace Sdif

/-! ## Part 1: the wrapper header and a small C-preprocessor model -/

/-- A line of a C header, as the preprocessor classifies it: include-guard
conditional, macro definition, system include, `#endif`, a comment or blank
line, or an ordinary declaration line contributing a declaration of its own. -/
inductive CLine where
  | ifndefGuard (name : String)
  | defineGuard (name : String)
  | includeSys (path : String)
  | endifLine
  | commentLine
  | blankLine
  | declLine (d : String)
deriving DecidableEq

/-- Preprocessor state: the set of defined macro names and the declarations
exposed so far to the translation unit. -/
structure PPState where
  defined : List String
  decls : List String
deriving DecidableEq

/-- One preprocessor step over a line.  The Boolean is the skipping flag of
the (single, unnested) active `#ifndef` region: while skipping, every line
except `#endif` is discarded.  `env` maps an included path to the
declarations that header exposes. -/
def step (env : String → List String) (acc : PPState × Bool) (l : CLine) :
    PPState × Bool :=
  match acc, l with
  | (s, true), .endifLine => (s, false)
  | (s, true), _ => (s, true)
  | (s, false), .ifndefGuard n =>
      if n ∈ s.defined then (s, true) else (s, false)
  | (s, false), .defineGuard n => ({ s with defined := n :: s.defined }, false)
  | (s, false), .includeSys p => ({ s with decls := s.decls ++ env p }, false)
  | (s, false), .declLine d => ({ s with decls := s.decls ++ [d] }, false)
  | (s, false), .endifLine => (s, false)
  | (s, false), .commentLine => (s, false)
  | (s, false), .blankLine => (s, false)

/-- Preprocess a whole file, line by line, starting with the skip flag off. -/
def processFile (env : String → List String) (lines : List CLine)
    (st : PPState) : PPState :=
  (lines.foldl (step env) (st, false)).1

/-- The fourteen lines of `src/sdif-sys/wrapper.h`, in order. -/
def wrapperLines : List CLine :=
  [ .ifndefGuard "WRAPPER_H",
    .defineGuard "WRAPPER_H",
    .blankLine,
    .commentLine,
    .commentLine,
    .commentLine,
    .commentLine,
    .commentLine,
    .commentLine,
    .blankLine,
    .commentLine,
    .includeSys "sdif.h",
    .blankLine,
    .endifLine ]

/-- The effect of `#include "wrapper.h"` on a preprocessor state. -/
def includeWrapper (env : String → List String) (st : PPState) : PPState :=
  processFile env wrapperLines st

/-! ## Part 2: the SDIF codec modelled from the specification

The repository contains no codec implementation under `src/`; the design
specification (sections 3, 4.1-4.4 and 7) describes one.  Every definition
below is modelled from the specification's words. -/

/-- Modelled from the spec: the error taxonomy of section 7; the repository
ships no error type of its own. -/
inductive SdifError where
  | NotFoundError
  | PermissionError
  | MalformedHeaderError
  | TruncatedInputError
  | FrameSizeMismatchError
  | TrailingBytesError
  | WriteFailedError
  | SessionClosedError
deriving DecidableEq

/-- Modelled from the spec: a Stream positioned by a cursor (section 3); the
repository ships no stream type.  Bytes are naturals below 256. -/
structure RState where
  data : List Nat
  pos : Nat
deriving DecidableEq

/-- Modelled from the spec: `readBytes(n)` of section 4.1, advancing the
cursor by exactly `n` and failing with `TruncatedInputError` when fewer than
`n` bytes remain. -/
def readBytes (n : Nat) (s : RState) : Except SdifError (List Nat × RState) :=
  if s.pos + n ≤ s.data.length then
    .ok ((s.data.drop s.pos).take n, ⟨s.data, s.pos + n⟩)
  else
    .error .TruncatedInputError

/-- Big-endian value of a byte list (most significant byte first). -/
def beVal (bs : List Nat) : Nat := bs.foldl (fun a b => a * 256 + b) 0

/-- The `k`-byte big-endian encoding of `v` (most significant byte first). -/
def beBytes : Nat → Nat → List Nat
  | 0, _ => []
  | k + 1, v => beBytes k (v / 256) ++ [v % 256]

/-- Modelled from the spec: `readUint32` of section 4.1 — four bytes in the
format's fixed big-endian order. -/
def readUint32 (s : RState) : Except SdifError (Nat × RState) :=
  match readBytes 4 s with
  | .error e => .error e
  | .ok (bs, s1) => .ok (beVal bs, s1)

/-- Modelled from the spec: `readFloat64` of section 4.1 — eight bytes in
big-endian order; the 64-bit pattern is kept as a natural number, never
interpreted arithmetically. -/
def readFloat64 (s : RState) : Except SdifError (Nat × RState) :=
  match readBytes 8 s with
  | .error e => .error e
  | .ok (bs, s1) => .ok (beVal bs, s1)

/-- Modelled from the spec: `readTag4` of section 4.1 — a four-character
type tag, kept as its four raw bytes. -/
def readTag4 (s : RState) : Except SdifError (List Nat × RState) :=
  readBytes 4 s

/-- Padding needed after `n` payload bytes to reach the format's 8-byte
alignment boundary (section 4.1). -/
def pad8 (n : Nat) : Nat := (8 - n % 8) % 8

/-- Modelled from the spec: a Matrix (section 3) — row count, column count,
element type tag and raw element data, under a four-character matrix tag. -/
structure Matrix where
  tag : List Nat
  elemType : Nat
  rows : Nat
  cols : Nat
  payload : List Nat
deriving DecidableEq

/-- Modelled from the spec: the element byte width is fully determined by
the element type tag (section 3); the tag's low byte carries the width. -/
def elemWidth (t : Nat) : Nat := t % 256

/-- Total payload bytes of a matrix: rows × columns × element width. -/
def matPayloadLen (m : Matrix) : Nat := m.rows * m.cols * elemWidth m.elemType

/-- Modelled from the spec: matrix encoding (section 4.2) — a 16-byte matrix
header (tag, element type, rows, columns) followed by the payload and
zero-valued pad bytes to the 8-byte boundary. -/
def encodeMatrix (m : Matrix) : List Nat :=
  m.tag ++ beBytes 4 m.elemType ++ beBytes 4 m.rows ++ beBytes 4 m.cols ++
  m.payload ++ List.replicate (pad8 m.payload.length) 0

/-- Modelled from the spec: a frame body is either the ordered matrices of a
recognized frame, or the raw bytes of a frame skipped because its tag is
unknown (sections 3 and 4.3). -/
inductive FrameBody where
  | matrices : List Matrix → FrameBody
  | skipped : List Nat → FrameBody
deriving DecidableEq

/-- Modelled from the spec: a Frame (section 3) — a four-character tag, a
floating-point time tag (kept as its 64-bit pattern), a stream id, and a
body. The header's size field is derived from the body on encode. -/
structure Frame where
  tag : List Nat
  time : Nat
  streamId : Nat
  body : FrameBody
deriving DecidableEq

/-- The payload bytes a frame body serializes to. -/
def encodeBody : FrameBody → List Nat
  | .matrices ms => (ms.map encodeMatrix).flatten
  | .skipped bs => bs

/-- Modelled from the spec: frame encoding (section 4.2) — serialize the
matrices, then write the 20-byte frame header (tag, size, time tag, stream
id) with size equal to the serialized body length, then the body. -/
def encodeFrame (f : Frame) : List Nat :=
  f.tag ++ beBytes 4 (encodeBody f.body).length ++ beBytes 8 f.time ++
  beBytes 4 f.streamId ++ encodeBody f.body

/-- Modelled from the spec: a file is the concatenation of its frames
(section 6), with no explicit end marker. -/
def encode (fs : List Frame) : List Nat := (fs.map encodeFrame).flatten

/-- Modelled from the spec: a registry entry maps a four-character tag to
its semantic decoding rule (section 4.3); only the tag matters here. -/
structure RegistryEntry where
  tag : List Nat
  description : String
deriving DecidableEq

/-- A tag is known to a registry when some entry carries it. -/
def knownTag (reg : List RegistryEntry) (t : List Nat) : Bool :=
  reg.any (fun e => e.tag == t)

/-- Modelled from the spec: the default registry, holding the one
"1TRC"-style time-frequency tag the spec names (section 4.3). -/
def registry : List RegistryEntry :=
  [⟨[0x31, 0x54, 0x52, 0x43], "sinusoidal tracks"⟩]

/-- Modelled from the spec: decoding one matrix (section 4.2) — read the
16-byte matrix header, derive the payload length from rows × columns ×
element width, fail with `FrameSizeMismatchError` when the padded payload
would read past the computed frame end, otherwise read the payload and skip
the pad bytes. -/
def decodeMatrix (frameEnd : Nat) (s : RState) :
    Except SdifError (Matrix × RState) :=
  match readTag4 s with
  | .error e => .error e
  | .ok (tag, s1) =>
  match readUint32 s1 with
  | .error e => .error e
  | .ok (et, s2) =>
  match readUint32 s2 with
  | .error e => .error e
  | .ok (r, s3) =>
  match readUint32 s3 with
  | .error e => .error e
  | .ok (c, s4) =>
  let plen := r * c * elemWidth et
  if frameEnd < s4.pos + plen + pad8 plen then
    .error .FrameSizeMismatchError
  else
    match readBytes plen s4 with
    | .error e => .error e
    | .ok (pl, s5) =>
    match readBytes (pad8 plen) s5 with
    | .error e => .error e
    | .ok (_, s6) => .ok (⟨tag, et, r, c, pl⟩, s6)

/-- Modelled from the spec: the matrix loop of section 4.2 — keep reading
matrices until the cursor reaches the computed frame end; fewer remaining
bytes than a matrix header are accepted only as zero-valued padding and
otherwise fail with `TrailingBytesError`.  The fuel argument only bounds the
recursion; `decodeFrame` always passes enough. -/
def decodeMatricesAux : Nat → Nat → RState →
    Except SdifError (List Matrix × RState)
  | 0, _, _ => .error .TruncatedInputError
  | fuel + 1, frameEnd, s =>
    if frameEnd ≤ s.pos then .ok ([], s)
    else if frameEnd - s.pos < 16 then
      match readBytes (frameEnd - s.pos) s with
      | .error e => .error e
      | .ok (padBytes, s1) =>
        if padBytes.all (fun b => b == 0) then .ok ([], s1)
        else .error .TrailingBytesError
    else
      match decodeMatrix frameEnd s with
      | .error e => .error e
      | .ok (m, s1) =>
      match decodeMatricesAux fuel frameEnd s1 with
      | .error e => .error e
      | .ok (ms, s2) => .ok (m :: ms, s2)

/-- Modelled from the spec: decoding one frame (section 4.2) — read the
frame header (tag, size, time tag, stream id), compute the frame end offset
as the current offset plus the declared size, then read matrices up to that
end when the tag is known, or skip the declared size in one opaque block
when it is not (section 4.3). -/
def decodeFrame (reg : List RegistryEntry) (s : RState) :
    Except SdifError (Frame × RState) :=
  match readTag4 s with
  | .error e => .error e
  | .ok (tag, s1) =>
  match readUint32 s1 with
  | .error e => .error e
  | .ok (size, s2) =>
  match readFloat64 s2 with
  | .error e => .error e
  | .ok (time, s3) =>
  match readUint32 s3 with
  | .error e => .error e
  | .ok (sid, s4) =>
  if knownTag reg tag then
    match decodeMatricesAux (size + 1) (s4.pos + size) s4 with
    | .error e => .error e
    | .ok (ms, s5) => .ok (⟨tag, time, sid, .matrices ms⟩, s5)
  else
    match readBytes size s4 with
    | .error e => .error e
    | .ok (bs, s5) => .ok (⟨tag, time, sid, .skipped bs⟩, s5)

/-- Modelled from the spec: the frame loop over a file (section 6) — a file
is a sequence of frames terminated by end-of-file.  The fuel argument only
bounds the recursion; `decodeFile` always passes enough. -/
def decodeFileAux (reg : List RegistryEntry) : Nat → RState →
    Except SdifError (List Frame × RState)
  | 0, _ => .error .TruncatedInputError
  | fuel + 1, s =>
    if s.data.length ≤ s.pos then .ok ([], s)
    else
      match decodeFrame reg s with
      | .error e => .error e
      | .ok (f, s1) =>
      match decodeFileAux reg fuel s1 with
      | .error e => .error e
      | .ok (fs, s2) => .ok (f :: fs, s2)

/-- Modelled from the spec: decode a whole byte sequence into its frames. -/
def decodeFile (reg : List RegistryEntry) (data : List Nat) :
    Except SdifError (List Frame) :=
  match decodeFileAux reg (data.length + 1) ⟨data, 0⟩ with
  | .error e => .error e
  | .ok (fs, _) => .ok fs

/-- Decoding against the default registry. -/
def decode (data : List Nat) : Except SdifError (List Frame) :=
  decodeFile registry data

/-- A matrix the encoder may legitimately be given: a four-byte tag, 32-bit
header fields, and a payload of exactly rows × columns × element width
bytes. -/
def validMatrix (m : Matrix) : Bool :=
  m.tag.length == 4 && decide (m.elemType < 2 ^ 32) &&
  decide (m.rows < 2 ^ 32) && decide (m.cols < 2 ^ 32) &&
  m.payload.length == matPayloadLen m

/-- A frame body consistent with its tag: matrices under a known tag, an
opaque skipped block under an unknown one. -/
def validBody (reg : List RegistryEntry) (t : List Nat) : FrameBody → Bool
  | .matrices ms => knownTag reg t && ms.all validMatrix
  | .skipped _ => !knownTag reg t

/-- A frame the encoder may legitimately be given: a four-byte tag, 32-bit
stream id and size, a 64-bit time pattern, and a body consistent with the
registry. -/
def validFrame (reg : List RegistryEntry) (f : Frame) : Bool :=
  f.tag.length == 4 && decide (f.time < 2 ^ 64) &&
  decide (f.streamId < 2 ^ 32) &&
  decide ((encodeBody f.body).length < 2 ^ 32) &&
  validBody reg f.tag f.body

/-! ### The session layer (section 4.4) -/

/-- Modelled from the spec: the open modes of section 4.4. -/
inductive Mode where
  | Reading
  | Writing
deriving DecidableEq

/-- Modelled from the spec: the session state machine
`Closed → Open(Reading|Writing) → Closed` of section 4.4. -/
inductive SessionState where
  | Opened (m : Mode)
  | Closed
deriving DecidableEq

/-- Modelled from the spec: a Session (section 3) — it owns a stream with
cursor for reading and accumulates the bytes streamed out by writes. -/
structure Session where
  state : SessionState
  rs : RState
  out : List Nat
deriving DecidableEq

/-- A freshly opened reading session over a byte sequence. -/
def openRead (data : List Nat) : Session :=
  ⟨.Opened .Reading, ⟨data, 0⟩, []⟩

/-- Modelled from the spec: `close()` transitions to `Closed`
(section 4.4); writes were already streamed out eagerly. -/
def close (s : Session) : Session := { s with state := .Closed }

/-- Modelled from the spec: `nextFrame()` of section 4.4 — fails with
`SessionClosedError` on a closed session, yields `none` cleanly at
end-of-stream, yields the next decoded frame otherwise, and on a decode
error surfaces it and forces the session to `Closed`. -/
def nextFrame (reg : List RegistryEntry) (s : Session) :
    Except SdifError (Option Frame) × Session :=
  match s.state with
  | .Closed => (.error .SessionClosedError, s)
  | .Opened _ =>
    if s.rs.data.length ≤ s.rs.pos then (.ok none, s)
    else
      match decodeFrame reg s.rs with
      | .ok (f, rs1) => (.ok (some f), { s with rs := rs1 })
      | .error e => (.error e, { s with state := .Closed })

/-- Modelled from the spec: `writeFrame(frame)` of section 4.4 — fails with
`SessionClosedError` on a closed session and otherwise streams the encoded
frame out immediately. -/
def writeFrame (s : Session) (f : Frame) : Except SdifError Unit × Session :=
  match s.state with
  | .Closed => (.error .SessionClosedError, s)
  | .Opened _ => (.ok (), { s with out := s.out ++ encodeFrame f })

/-- Modelled from the spec: repeated `nextFrame` calls until end-of-stream
or an error, collecting the lazy sequence of frames (section 4.4).  The fuel
argument only bounds the recursion; `readAll` always passes enough. -/
def readFrames (reg : List RegistryEntry) : Nat → Session →
    Except SdifError (List Frame)
  | 0, _ => .error .TruncatedInputError
  | fuel + 1, s =>
    match nextFrame reg s with
    | (.ok none, _) => .ok []
    | (.ok (some f), s1) =>
      match readFrames reg fuel s1 with
      | .error e => .error e
      | .ok fs => .ok (f :: fs)
    | (.error e, _) => .error e

/-- Read every frame of a byte sequence through a fresh reading session. -/
def readAll (reg : List RegistryEntry) (data : List Nat) :
    Except SdifError (List Frame) :=
  readFrames reg (data.length + 1) (openRead data)

end Sdif

deriving instance DecidableEq for Except

namespace Sdif

/-! ## Part 3: basic lemmas about the primitives -/

theorem beBytes_length (k v : Nat) : (beBytes k v).length = k := by
  induction k generalizing v with
  | zero => rfl
  | succ k ih => simp [beBytes, ih]

theorem beVal_append_singleton (xs : List Nat) (b : Nat) :
    beVal (xs ++ [b]) = beVal xs * 256 + b := by
  simp [beVal, List.foldl_append]

theorem beVal_beBytes_mod (k v : Nat) : beVal (beBytes k v) = v % 256 ^ k := by
  induction k generalizing v with
  | zero => simp [beBytes, beVal, Nat.mod_one]
  | succ k ih =>
    rw [beBytes, beVal_append_singleton, ih, pow_succ', Nat.mod_mul]
    ring

theorem beVal_beBytes (k v : Nat) (h : v < 256 ^ k) :
    beVal (beBytes k v) = v := by
  rw [beVal_beBytes_mod, Nat.mod_eq_of_lt h]

theorem readBytes_ok (buf : List Nat) (p n : Nat) (h : p + n ≤ buf.length) :
    readBytes n ⟨buf, p⟩ = .ok ((buf.drop p).take n, ⟨buf, p + n⟩) := by
  simp [readBytes, h]

theorem readBytes_err (buf : List Nat) (p n : Nat) (h : buf.length < p + n) :
    readBytes n ⟨buf, p⟩ = .error .TruncatedInputError := by
  have hc : ¬ ((⟨buf, p⟩ : RState).pos + n ≤ (⟨buf, p⟩ : RState).data.length) := by
    show ¬ (p + n ≤ buf.length)
    omega
  rw [readBytes, if_neg hc]

theorem readBytes_ok_iff (n : Nat) (s : RState) (bs : List Nat) (s1 : RState) :
    readBytes n s = .ok (bs, s1) ↔
      s.pos + n ≤ s.data.length ∧ bs = (s.data.drop s.pos).take n ∧
      s1 = ⟨s.data, s.pos + n⟩ := by
  by_cases hc : s.pos + n ≤ s.data.length
  · rw [readBytes, if_pos hc]
    constructor
    · intro h
      injection h with h
      injection h with h1 h2
      exact ⟨hc, h1.symm, h2.symm⟩
    · rintro ⟨-, rfl, rfl⟩
      rfl
  · rw [readBytes, if_neg hc]
    constructor
    · intro h
      exact Except.noConfusion h
    · rintro ⟨h1, -, -⟩
      exact absurd h1 hc

/-- Reading a chunk that sits literally at the cursor returns that chunk and
advances past it. -/
theorem readBytes_chunk (buf : List Nat) (p : Nat) (xs rest : List Nat)
    (hp : p ≤ buf.length) (hd : buf.drop p = xs ++ rest) :
    readBytes xs.length ⟨buf, p⟩ = .ok (xs, ⟨buf, p + xs.length⟩) ∧
    buf.drop (p + xs.length) = rest ∧ p + xs.length ≤ buf.length := by
  have hlen : buf.length - p = xs.length + rest.length := by
    have h := congrArg List.length hd
    simp [List.length_drop] at h
    omega
  have hle : p + xs.length ≤ buf.length := by omega
  refine ⟨?_, ?_, hle⟩
  · rw [readBytes_ok buf p xs.length hle, hd, List.take_left]
  · have h1 : buf.drop (p + xs.length) = (buf.drop p).drop xs.length := by
      rw [List.drop_drop]
    rw [h1, hd, List.drop_left]

theorem readTag4_chunk (buf : List Nat) (p : Nat) (t rest : List Nat)
    (hp : p ≤ buf.length) (ht : t.length = 4) (hd : buf.drop p = t ++ rest) :
    readTag4 ⟨buf, p⟩ = .ok (t, ⟨buf, p + 4⟩) ∧
    buf.drop (p + 4) = rest ∧ p + 4 ≤ buf.length := by
  have h := readBytes_chunk buf p t rest hp hd
  rw [ht] at h
  exact ⟨h.1, h.2.1, h.2.2⟩

theorem readUint32_chunk (buf : List Nat) (p v : Nat) (rest : List Nat)
    (hp : p ≤ buf.length) (hv : v < 2 ^ 32)
    (hd : buf.drop p = beBytes 4 v ++ rest) :
    readUint32 ⟨buf, p⟩ = .ok (v, ⟨buf, p + 4⟩) ∧
    buf.drop (p + 4) = rest ∧ p + 4 ≤ buf.length := by
  have h := readBytes_chunk buf p (beBytes 4 v) rest hp hd
  rw [beBytes_length] at h
  refine ⟨?_, h.2.1, h.2.2⟩
  rw [readUint32, h.1]
  have hb : beVal (beBytes 4 v) = v :=
    beVal_beBytes 4 v (by norm_num at hv ⊢; omega)
  simp [hb]

theorem readFloat64_chunk (buf : List Nat) (p v : Nat) (rest : List Nat)
    (hp : p ≤ buf.length) (hv : v < 2 ^ 64)
    (hd : buf.drop p = beBytes 8 v ++ rest) :
    readFloat64 ⟨buf, p⟩ = .ok (v, ⟨buf, p + 8⟩) ∧
    buf.drop (p + 8) = rest ∧ p + 8 ≤ buf.length := by
  have h := readBytes_chunk buf p (beBytes 8 v) rest hp hd
  rw [beBytes_length] at h
  refine ⟨?_, h.2.1, h.2.2⟩
  rw [readFloat64, h.1]
  have hb : beVal (beBytes 8 v) = v :=
    beVal_beBytes 8 v (by norm_num at hv ⊢; omega)
  simp [hb]

/-! ## Part 4: decoding recovers what the encoder wrote -/

theorem validMatrix_eq_true (m : Matrix) (hv : validMatrix m = true) :
    m.tag.length = 4 ∧ m.elemType < 2 ^ 32 ∧ m.rows < 2 ^ 32 ∧
    m.cols < 2 ^ 32 ∧ m.payload.length = matPayloadLen m := by
  simp only [validMatrix, Bool.and_eq_true, beq_iff_eq, decide_eq_true_eq] at hv
  tauto

theorem encodeMatrix_length (m : Matrix) (ht : m.tag.length = 4) :
    (encodeMatrix m).length = 16 + m.payload.length + pad8 m.payload.length := by
  simp [encodeMatrix, beBytes_length, ht]
  omega

theorem decodeMatrix_chunk (buf : List Nat) (p frameEnd : Nat) (m : Matrix)
    (rest : List Nat)
    (hv : validMatrix m = true) (hp : p ≤ buf.length)
    (hd : buf.drop p = encodeMatrix m ++ rest)
    (hE : p + 16 + m.payload.length + pad8 m.payload.length ≤ frameEnd) :
    decodeMatrix frameEnd ⟨buf, p⟩ =
      .ok (m, ⟨buf, p + 16 + m.payload.length + pad8 m.payload.length⟩) ∧
    buf.drop (p + 16 + m.payload.length + pad8 m.payload.length) = rest ∧
    p + 16 + m.payload.length + pad8 m.payload.length ≤ buf.length := by
  obtain ⟨ht4, he32, hr32, hc32, hpl⟩ := validMatrix_eq_true m hv
  have hpl' : m.payload.length = m.rows * m.cols * elemWidth m.elemType := by
    rw [hpl, matPayloadLen]
  have h1 := readTag4_chunk buf p m.tag
    (beBytes 4 m.elemType ++ (beBytes 4 m.rows ++ (beBytes 4 m.cols ++
      (m.payload ++ (List.replicate (pad8 m.payload.length) 0 ++ rest)))))
    hp ht4 (by rw [hd]; simp [encodeMatrix, List.append_assoc])
  have h2 := readUint32_chunk buf (p + 4) m.elemType
    (beBytes 4 m.rows ++ (beBytes 4 m.cols ++
      (m.payload ++ (List.replicate (pad8 m.payload.length) 0 ++ rest))))
    h1.2.2 he32 h1.2.1
  have h3 := readUint32_chunk buf (p + 4 + 4) m.rows
    (beBytes 4 m.cols ++
      (m.payload ++ (List.replicate (pad8 m.payload.length) 0 ++ rest)))
    h2.2.2 hr32 h2.2.1
  have h4 := readUint32_chunk buf (p + 4 + 4 + 4) m.cols
    (m.payload ++ (List.replicate (pad8 m.payload.length) 0 ++ rest))
    h3.2.2 hc32 h3.2.1
  have h5 := readBytes_chunk buf (p + 4 + 4 + 4 + 4) m.payload
    (List.replicate (pad8 m.payload.length) 0 ++ rest)
    h4.2.2 h4.2.1
  have h6 := readBytes_chunk buf (p + 4 + 4 + 4 + 4 + m.payload.length)
    (List.replicate (pad8 m.payload.length) 0) rest
    h5.2.2 h5.2.1
  rw [List.length_replicate] at h6
  have hcond : ¬ (frameEnd < p + 4 + 4 + 4 + 4 +
      m.rows * m.cols * elemWidth m.elemType +
      pad8 (m.rows * m.cols * elemWidth m.elemType)) := by
    rw [← hpl']
    omega
  rw [decodeMatrix, h1.1]
  simp only [h2.1, h3.1, h4.1]
  rw [if_neg hcond, ← hpl']
  simp only [h5.1, h6.1]
  refine ⟨?_, ?_, by omega⟩
  · simp only [Except.ok.injEq, Prod.mk.injEq, RState.mk.injEq]
  · have hq : p + 16 + m.payload.length + pad8 m.payload.length =
        p + 4 + 4 + 4 + 4 + m.payload.length + pad8 m.payload.length := by
      omega
    rw [hq]
    exact h6.2.1

/-- The matrix loop recovers exactly the encoded matrix list when the frame
end matches the encoded length. -/
theorem decodeMatricesAux_chunk (ms : List Matrix) (buf : List Nat)
    (frameEnd : Nat) :
    ∀ p fuel (rest : List Nat),
      (∀ m ∈ ms, validMatrix m = true) → p ≤ buf.length →
      buf.drop p = (ms.map encodeMatrix).flatten ++ rest →
      frameEnd = p + ((ms.map encodeMatrix).flatten).length →
      ms.length < fuel →
      decodeMatricesAux fuel frameEnd ⟨buf, p⟩ = .ok (ms, ⟨buf, frameEnd⟩) ∧
      buf.drop frameEnd = rest ∧ frameEnd ≤ buf.length := by
  induction ms with
  | nil =>
    intro p fuel rest hv hp hd hE hfuel
    match fuel, hfuel with
    | fuel + 1, _ =>
    simp only [List.map_nil, List.flatten_nil, List.nil_append] at hd
    simp only [List.map_nil, List.flatten_nil, List.length_nil,
      Nat.add_zero] at hE
    subst hE
    refine ⟨?_, hd, hp⟩
    simp [decodeMatricesAux]
  | cons m ms ih =>
    intro p fuel rest hv hp hd hE hfuel
    match fuel, hfuel with
    | fuel + 1, hfuel =>
    simp only [List.length_cons] at hfuel
    have hvm : validMatrix m = true := hv m (by simp)
    have hvs : ∀ m1 ∈ ms, validMatrix m1 = true := fun m1 h => hv m1 (by simp [h])
    have ht4 : m.tag.length = 4 := (validMatrix_eq_true m hvm).1
    have hml := encodeMatrix_length m ht4
    simp only [List.map_cons, List.flatten_cons, List.append_assoc] at hd
    have hlen : ((List.map encodeMatrix (m :: ms)).flatten).length =
        (encodeMatrix m).length +
          ((List.map encodeMatrix ms).flatten).length := by
      simp
    rw [hlen] at hE
    have hchunk := decodeMatrix_chunk buf p frameEnd m
      ((List.map encodeMatrix ms).flatten ++ rest) hvm hp hd (by omega)
    have hc1 : ¬ (frameEnd ≤ (⟨buf, p⟩ : RState).pos) := by
      show ¬ (frameEnd ≤ p)
      omega
    have hc2 : ¬ (frameEnd - (⟨buf, p⟩ : RState).pos < 16) := by
      show ¬ (frameEnd - p < 16)
      omega
    have hrec := ih (p + 16 + m.payload.length + pad8 m.payload.length) fuel
      rest hvs hchunk.2.2 hchunk.2.1 (by omega) (by omega)
    rw [decodeMatricesAux, if_neg hc1, if_neg hc2]
    simp only [hchunk.1, hrec.1, eq_self_iff_true, true_and]
    exact ⟨hrec.2.1, hrec.2.2⟩

theorem validFrame_eq_true (reg : List RegistryEntry) (f : Frame)
    (hv : validFrame reg f = true) :
    f.tag.length = 4 ∧ f.time < 2 ^ 64 ∧ f.streamId < 2 ^ 32 ∧
    (encodeBody f.body).length < 2 ^ 32 ∧ validBody reg f.tag f.body = true := by
  simp only [validFrame, Bool.and_eq_true, beq_iff_eq, decide_eq_true_eq] at hv
  tauto

theorem encodeMatrix_length_pos (m : Matrix) : 1 ≤ (encodeMatrix m).length := by
  simp [encodeMatrix, beBytes_length]
  omega

theorem flatten_encodeMatrix_length_ge (ms : List Matrix) :
    ms.length ≤ ((ms.map encodeMatrix).flatten).length := by
  induction ms with
  | nil => simp
  | cons m ms ih =>
    simp only [List.map_cons, List.flatten_cons, List.length_append,
      List.length_cons]
    have h1 := encodeMatrix_length_pos m
    omega

/-- Decoding at an encoded frame recovers that frame and leaves the cursor
right after it. -/
theorem decodeFrame_chunk (reg : List RegistryEntry) (f : Frame)
    (buf : List Nat) (p : Nat) (rest : List Nat)
    (hv : validFrame reg f = true) (hp : p ≤ buf.length)
    (hd : buf.drop p = encodeFrame f ++ rest) :
    decodeFrame reg ⟨buf, p⟩ =
      .ok (f, ⟨buf, p + 20 + (encodeBody f.body).length⟩) ∧
    buf.drop (p + 20 + (encodeBody f.body).length) = rest ∧
    p + 20 + (encodeBody f.body).length ≤ buf.length := by
  obtain ⟨ht4, htime, hsid, hsize, hbody⟩ := validFrame_eq_true reg f hv
  have h1 := readTag4_chunk buf p f.tag
    (beBytes 4 (encodeBody f.body).length ++ (beBytes 8 f.time ++
      (beBytes 4 f.streamId ++ (encodeBody f.body ++ rest))))
    hp ht4 (by rw [hd]; simp [encodeFrame, List.append_assoc])
  have h2 := readUint32_chunk buf (p + 4) (encodeBody f.body).length
    (beBytes 8 f.time ++ (beBytes 4 f.streamId ++ (encodeBody f.body ++ rest)))
    h1.2.2 hsize h1.2.1
  have h3 := readFloat64_chunk buf (p + 4 + 4) f.time
    (beBytes 4 f.streamId ++ (encodeBody f.body ++ rest))
    h2.2.2 htime h2.2.1
  have h4 := readUint32_chunk buf (p + 4 + 4 + 8) f.streamId
    (encodeBody f.body ++ rest)
    h3.2.2 hsid h3.2.1
  rw [decodeFrame, h1.1]
  simp only [h2.1, h3.1, h4.1]
  cases hb : f.body with
  | matrices ms =>
    rw [hb] at hbody
    simp only [validBody, Bool.and_eq_true] at hbody
    have hvms : ∀ m ∈ ms, validMatrix m = true := by
      have := hbody.2
      simpa [List.all_eq_true] using this
    rw [if_pos hbody.1]
    have hfg := flatten_encodeMatrix_length_ge ms
    have hmm := decodeMatricesAux_chunk ms buf
      ((⟨buf, p + 4 + 4 + 8 + 4⟩ : RState).pos +
        (encodeBody (FrameBody.matrices ms)).length)
      (p + 4 + 4 + 8 + 4) ((encodeBody (FrameBody.matrices ms)).length + 1)
      rest hvms h4.2.2
      (by rw [h4.2.1, hb]; simp [encodeBody])
      (by simp [encodeBody])
      (by simp only [encodeBody]; omega)
    simp only [hmm.1]
    have hpos : (⟨buf, p + 4 + 4 + 8 + 4⟩ : RState).pos +
        (encodeBody (FrameBody.matrices ms)).length =
        p + 20 + (encodeBody (FrameBody.matrices ms)).length := by
      show p + 4 + 4 + 8 + 4 + (encodeBody (FrameBody.matrices ms)).length = _
      omega
    rw [hpos] at hmm ⊢
    refine ⟨?_, hmm.2.1, hmm.2.2⟩
    simp only [Except.ok.injEq, Prod.mk.injEq, RState.mk.injEq, and_true,
      eq_self_iff_true, true_and]
    rw [← hb]
  | skipped bs =>
    rw [hb] at hbody
    simp only [validBody, Bool.not_eq_true'] at hbody
    rw [if_neg (by rw [hbody]; exact Bool.false_ne_true)]
    have h5 := readBytes_chunk buf (p + 4 + 4 + 8 + 4) bs rest h4.2.2
      (by rw [h4.2.1, hb]; simp [encodeBody])
    have hlb : (encodeBody (FrameBody.skipped bs)).length = bs.length := by
      simp [encodeBody]
    rw [hlb]
    simp only [h5.1]
    have hpos : p + 20 + bs.length = p + 4 + 4 + 8 + 4 + bs.length := by omega
    rw [hpos]
    refine ⟨?_, h5.2.1, h5.2.2⟩
    simp only [Except.ok.injEq, Prod.mk.injEq, RState.mk.injEq, and_true,
      eq_self_iff_true, true_and]
    rw [← hb]

theorem encodeFrame_length_pos (f : Frame) : 1 ≤ (encodeFrame f).length := by
  simp [encodeFrame, beBytes_length]
  omega

theorem encodeFrame_length (f : Frame) (ht : f.tag.length = 4) :
    (encodeFrame f).length = 20 + (encodeBody f.body).length := by
  simp [encodeFrame, beBytes_length, ht]
  omega

theorem flatten_encodeFrame_length_ge (fs : List Frame) :
    fs.length ≤ ((fs.map encodeFrame).flatten).length := by
  induction fs with
  | nil => simp
  | cons f fs ih =>
    simp only [List.map_cons, List.flatten_cons, List.length_append,
      List.length_cons]
    have h1 := encodeFrame_length_pos f
    omega

/-- Reaching end-of-file stops the frame loop cleanly. -/
theorem decodeFileAux_eof (reg : List RegistryEntry) (buf : List Nat)
    (p fuel : Nat) (hp : buf.length ≤ p) (hf : 0 < fuel) :
    decodeFileAux reg fuel ⟨buf, p⟩ = .ok ([], ⟨buf, p⟩) := by
  match fuel, hf with
  | fuel + 1, _ =>
    have hc : (⟨buf, p⟩ : RState).data.length ≤ (⟨buf, p⟩ : RState).pos := by
      show buf.length ≤ p
      exact hp
    rw [decodeFileAux, if_pos hc]

/-- The frame loop first decodes an encoded prefix of frames, then continues
as it would on the remainder. -/
theorem decodeFileAux_prefix (reg : List RegistryEntry) (fs : List Frame)
    (buf : List Nat) :
    ∀ p fuel (rest : List Nat),
      (∀ f ∈ fs, validFrame reg f = true) → p ≤ buf.length →
      buf.drop p = (fs.map encodeFrame).flatten ++ rest →
      decodeFileAux reg (fuel + fs.length) ⟨buf, p⟩ =
        (match decodeFileAux reg fuel
            ⟨buf, p + ((fs.map encodeFrame).flatten).length⟩ with
         | .error e => .error e
         | .ok (gs, s2) => .ok (fs ++ gs, s2)) := by
  induction fs with
  | nil =>
    intro p fuel rest hv hp hd
    simp only [List.map_nil, List.flatten_nil, List.length_nil, Nat.add_zero,
      List.nil_append]
    cases h : decodeFileAux reg fuel ⟨buf, p⟩ with
    | error e => rfl
    | ok v =>
      obtain ⟨gs, s2⟩ := v
      rfl
  | cons f fs ih =>
    intro p fuel rest hv hp hd
    have hvf : validFrame reg f = true := hv f (by simp)
    have hvs : ∀ g ∈ fs, validFrame reg g = true := fun g h => hv g (by simp [h])
    have ht4 : f.tag.length = 4 := (validFrame_eq_true reg f hvf).1
    simp only [List.map_cons, List.flatten_cons, List.append_assoc] at hd
    have hne : p < buf.length := by
      have hlen := congrArg List.length hd
      simp only [List.length_drop, List.length_append] at hlen
      have h1 := encodeFrame_length_pos f
      omega
    have hchunk := decodeFrame_chunk reg f buf p
      ((fs.map encodeFrame).flatten ++ rest) hvf (by omega) hd
    simp only [List.length_cons]
    have hadd : fuel + (fs.length + 1) = (fuel + fs.length) + 1 := by omega
    rw [hadd]
    have hc : ¬ ((⟨buf, p⟩ : RState).data.length ≤ (⟨buf, p⟩ : RState).pos) := by
      show ¬ (buf.length ≤ p)
      omega
    rw [decodeFileAux, if_neg hc]
    simp only [hchunk.1]
    have hrec := ih (p + 20 + (encodeBody f.body).length) fuel rest hvs
      hchunk.2.2 hchunk.2.1
    rw [hrec]
    have hflen : ((List.map encodeFrame (f :: fs)).flatten).length =
        20 + (encodeBody f.body).length +
          ((List.map encodeFrame fs).flatten).length := by
      simp [encodeFrame_length f ht4]
    have hpos : p + 20 + (encodeBody f.body).length +
        ((List.map encodeFrame fs).flatten).length =
        p + ((List.map encodeFrame (f :: fs)).flatten).length := by
      rw [hflen]
      omega
    rw [hpos]
    cases h : decodeFileAux reg fuel
        ⟨buf, p + ((List.map encodeFrame (f :: fs)).flatten).length⟩ with
    | error e => rfl
    | ok v =>
      obtain ⟨gs, s2⟩ := v
      rfl

/-- Helper for the round-trip property: decoding the encoding of any valid
frame list recovers exactly that list. -/
theorem decodeFile_encode (reg : List RegistryEntry) (fs : List Frame)
    (hv : ∀ f ∈ fs, validFrame reg f = true) :
    decodeFile reg (encode fs) = .ok fs := by
  have hge : fs.length ≤ (encode fs).length := flatten_encodeFrame_length_ge fs
  have heq : ((encode fs).length + 1 - fs.length) + fs.length =
      (encode fs).length + 1 := by omega
  have hpre := decodeFileAux_prefix reg fs (encode fs) 0
    ((encode fs).length + 1 - fs.length) [] hv (by omega) (by simp [encode])
  rw [heq] at hpre
  have hstop : decodeFileAux reg ((encode fs).length + 1 - fs.length)
      ⟨encode fs, 0 + ((fs.map encodeFrame).flatten).length⟩ =
      .ok ([], ⟨encode fs, 0 + ((fs.map encodeFrame).flatten).length⟩) := by
    apply decodeFileAux_eof
    · have : ((fs.map encodeFrame).flatten).length = (encode fs).length := rfl
      omega
    · omega
  rw [decodeFile, hpre, hstop]
  simp

/-! ## Part 5: inversion helpers and truncation behaviour -/

theorem readBytes_ok_inv (n : Nat) (s : RState) (bs : List Nat) (s1 : RState)
    (h : readBytes n s = .ok (bs, s1)) :
    s.pos + n ≤ s.data.length ∧ bs.length = n ∧ s1 = ⟨s.data, s.pos + n⟩ := by
  obtain ⟨h1, h2, h3⟩ := (readBytes_ok_iff n s bs s1).mp h
  refine ⟨h1, ?_, h3⟩
  subst h2
  simp only [List.length_take, List.length_drop]
  omega

theorem readBytes_err_inv (n : Nat) (s : RState) (e : SdifError)
    (h : readBytes n s = .error e) :
    e = .TruncatedInputError ∧ s.data.length < s.pos + n := by
  rw [readBytes] at h
  by_cases hc : s.pos + n ≤ s.data.length
  · rw [if_pos hc] at h
    exact absurd h (by simp)
  · rw [if_neg hc] at h
    injection h with h
    exact ⟨h.symm, by omega⟩

theorem readUint32_eval (buf : List Nat) (p : Nat) (h : p + 4 ≤ buf.length) :
    readUint32 ⟨buf, p⟩ =
      .ok (beVal ((buf.drop p).take 4), ⟨buf, p + 4⟩) := by
  rw [readUint32, readBytes_ok buf p 4 h]

theorem readUint32_err (buf : List Nat) (p : Nat) (h : buf.length < p + 4) :
    readUint32 ⟨buf, p⟩ = .error .TruncatedInputError := by
  rw [readUint32, readBytes_err buf p 4 h]

theorem readFloat64_eval (buf : List Nat) (p : Nat) (h : p + 8 ≤ buf.length) :
    readFloat64 ⟨buf, p⟩ =
      .ok (beVal ((buf.drop p).take 8), ⟨buf, p + 8⟩) := by
  rw [readFloat64, readBytes_ok buf p 8 h]

theorem readFloat64_err (buf : List Nat) (p : Nat) (h : buf.length < p + 8) :
    readFloat64 ⟨buf, p⟩ = .error .TruncatedInputError := by
  rw [readFloat64, readBytes_err buf p 8 h]

theorem readTag4_eval (buf : List Nat) (p : Nat) (h : p + 4 ≤ buf.length) :
    readTag4 ⟨buf, p⟩ = .ok ((buf.drop p).take 4, ⟨buf, p + 4⟩) :=
  readBytes_ok buf p 4 h

theorem readTag4_err (buf : List Nat) (p : Nat) (h : buf.length < p + 4) :
    readTag4 ⟨buf, p⟩ = .error .TruncatedInputError :=
  readBytes_err buf p 4 h

/-- Inverting a successful matrix decode: the payload length obeys the
rows × columns × element-width rule and the cursor lands after the padded
payload, within both the frame end and the data. -/
theorem decodeMatrix_ok (frameEnd : Nat) (buf : List Nat) (p : Nat)
    (m : Matrix) (s1 : RState)
    (h : decodeMatrix frameEnd ⟨buf, p⟩ = .ok (m, s1)) :
    s1.data = buf ∧ m.payload.length = matPayloadLen m ∧
    s1.pos = p + 16 + m.payload.length + pad8 m.payload.length ∧
    s1.pos ≤ frameEnd ∧ s1.pos ≤ buf.length ∧ p + 16 ≤ s1.pos := by
  rcases Nat.lt_or_ge buf.length (p + 4) with hb | h4
  · rw [decodeMatrix, readTag4_err buf p hb] at h
    exact absurd h (by simp)
  rcases Nat.lt_or_ge buf.length (p + 4 + 4) with hb | h8
  · simp only [decodeMatrix, readTag4_eval buf p h4,
      readUint32_err buf (p + 4) hb] at h
    exact absurd h (by simp)
  rcases Nat.lt_or_ge buf.length (p + 4 + 4 + 4) with hb | h12
  · simp only [decodeMatrix, readTag4_eval buf p h4,
      readUint32_eval buf (p + 4) h8,
      readUint32_err buf (p + 4 + 4) hb] at h
    exact absurd h (by simp)
  rcases Nat.lt_or_ge buf.length (p + 4 + 4 + 4 + 4) with hb | h16
  · simp only [decodeMatrix, readTag4_eval buf p h4,
      readUint32_eval buf (p + 4) h8, readUint32_eval buf (p + 4 + 4) h12,
      readUint32_err buf (p + 4 + 4 + 4) hb] at h
    exact absurd h (by simp)
  simp only [decodeMatrix, readTag4_eval buf p h4,
    readUint32_eval buf (p + 4) h8, readUint32_eval buf (p + 4 + 4) h12,
    readUint32_eval buf (p + 4 + 4 + 4) h16] at h
  by_cases hcond : frameEnd < p + 4 + 4 + 4 + 4 +
      beVal ((buf.drop (p + 4 + 4)).take 4) *
        beVal ((buf.drop (p + 4 + 4 + 4)).take 4) *
        elemWidth (beVal ((buf.drop (p + 4)).take 4)) +
      pad8 (beVal ((buf.drop (p + 4 + 4)).take 4) *
        beVal ((buf.drop (p + 4 + 4 + 4)).take 4) *
        elemWidth (beVal ((buf.drop (p + 4)).take 4)))
  · rw [if_pos hcond] at h
    exact absurd h (by simp)
  rw [if_neg hcond] at h
  rcases Nat.lt_or_ge buf.length (p + 4 + 4 + 4 + 4 +
      beVal ((buf.drop (p + 4 + 4)).take 4) *
        beVal ((buf.drop (p + 4 + 4 + 4)).take 4) *
        elemWidth (beVal ((buf.drop (p + 4)).take 4))) with hb | hpl
  · simp only [readBytes_err buf (p + 4 + 4 + 4 + 4) _ hb] at h
    exact absurd h (by simp)
  simp only [readBytes_ok buf (p + 4 + 4 + 4 + 4) _ hpl] at h
  rcases Nat.lt_or_ge buf.length (p + 4 + 4 + 4 + 4 +
      beVal ((buf.drop (p + 4 + 4)).take 4) *
        beVal ((buf.drop (p + 4 + 4 + 4)).take 4) *
        elemWidth (beVal ((buf.drop (p + 4)).take 4)) +
      pad8 (beVal ((buf.drop (p + 4 + 4)).take 4) *
        beVal ((buf.drop (p + 4 + 4 + 4)).take 4) *
        elemWidth (beVal ((buf.drop (p + 4)).take 4)))) with hb | hpd
  · simp only [readBytes_err buf _ _ hb] at h
    exact absurd h (by simp)
  simp only [readBytes_ok buf _ _ hpd] at h
  injection h with h
  injection h with hm hs1
  subst hm
  subst hs1
  have hlen : ((buf.drop (p + 4 + 4 + 4 + 4)).take
      (beVal ((buf.drop (p + 4 + 4)).take 4) *
        beVal ((buf.drop (p + 4 + 4 + 4)).take 4) *
        elemWidth (beVal ((buf.drop (p + 4)).take 4)))).length =
      beVal ((buf.drop (p + 4 + 4)).take 4) *
        beVal ((buf.drop (p + 4 + 4 + 4)).take 4) *
        elemWidth (beVal ((buf.drop (p + 4)).take 4)) := by
    simp only [List.length_take, List.length_drop]
    omega
  refine ⟨rfl, ?_, ?_, ?_, ?_, ?_⟩
  all_goals try simp only [matPayloadLen]
  all_goals try simp only [hlen]
  all_goals omega

theorem rstate_eta (s : RState) (buf : List Nat) (h : s.data = buf) :
    s = ⟨buf, s.pos⟩ := by
  cases s
  subst h
  rfl

/-- A failed matrix decode reports truncation or a frame size mismatch,
never any other error. -/
theorem decodeMatrix_err (frameEnd : Nat) (buf : List Nat) (p : Nat)
    (e : SdifError) (h : decodeMatrix frameEnd ⟨buf, p⟩ = .error e) :
    e = .TruncatedInputError ∨ e = .FrameSizeMismatchError := by
  rcases Nat.lt_or_ge buf.length (p + 4) with hb | h4
  · rw [decodeMatrix, readTag4_err buf p hb] at h
    injection h with h
    exact Or.inl h.symm
  rcases Nat.lt_or_ge buf.length (p + 4 + 4) with hb | h8
  · simp only [decodeMatrix, readTag4_eval buf p h4,
      readUint32_err buf (p + 4) hb] at h
    injection h with h
    exact Or.inl h.symm
  rcases Nat.lt_or_ge buf.length (p + 4 + 4 + 4) with hb | h12
  · simp only [decodeMatrix, readTag4_eval buf p h4,
      readUint32_eval buf (p + 4) h8,
      readUint32_err buf (p + 4 + 4) hb] at h
    injection h with h
    exact Or.inl h.symm
  rcases Nat.lt_or_ge buf.length (p + 4 + 4 + 4 + 4) with hb | h16
  · simp only [decodeMatrix, readTag4_eval buf p h4,
      readUint32_eval buf (p + 4) h8, readUint32_eval buf (p + 4 + 4) h12,
      readUint32_err buf (p + 4 + 4 + 4) hb] at h
    injection h with h
    exact Or.inl h.symm
  simp only [decodeMatrix, readTag4_eval buf p h4,
    readUint32_eval buf (p + 4) h8, readUint32_eval buf (p + 4 + 4) h12,
    readUint32_eval buf (p + 4 + 4 + 4) h16] at h
  by_cases hcond : frameEnd < p + 4 + 4 + 4 + 4 +
      beVal ((buf.drop (p + 4 + 4)).take 4) *
        beVal ((buf.drop (p + 4 + 4 + 4)).take 4) *
        elemWidth (beVal ((buf.drop (p + 4)).take 4)) +
      pad8 (beVal ((buf.drop (p + 4 + 4)).take 4) *
        beVal ((buf.drop (p + 4 + 4 + 4)).take 4) *
        elemWidth (beVal ((buf.drop (p + 4)).take 4)))
  · rw [if_pos hcond] at h
    injection h with h
    exact Or.inr h.symm
  rw [if_neg hcond] at h
  rcases Nat.lt_or_ge buf.length (p + 4 + 4 + 4 + 4 +
      beVal ((buf.drop (p + 4 + 4)).take 4) *
        beVal ((buf.drop (p + 4 + 4 + 4)).take 4) *
        elemWidth (beVal ((buf.drop (p + 4)).take 4))) with hb | hpl
  · simp only [readBytes_err buf (p + 4 + 4 + 4 + 4) _ hb] at h
    injection h with h
    exact Or.inl h.symm
  simp only [readBytes_ok buf (p + 4 + 4 + 4 + 4) _ hpl] at h
  rcases Nat.lt_or_ge buf.length (p + 4 + 4 + 4 + 4 +
      beVal ((buf.drop (p + 4 + 4)).take 4) *
        beVal ((buf.drop (p + 4 + 4 + 4)).take 4) *
        elemWidth (beVal ((buf.drop (p + 4)).take 4)) +
      pad8 (beVal ((buf.drop (p + 4 + 4)).take 4) *
        beVal ((buf.drop (p + 4 + 4 + 4)).take 4) *
        elemWidth (beVal ((buf.drop (p + 4)).take 4)))) with hb | hpd
  · simp only [readBytes_err buf _ _ hb] at h
    injection h with h
    exact Or.inl h.symm
  simp only [readBytes_ok buf _ _ hpd] at h
  exact absurd h (by simp)

/-- A successful matrix loop always stops with the cursor exactly at the
computed frame end. -/
theorem decodeMatricesAux_ok (frameEnd : Nat) (buf : List Nat) :
    ∀ fuel p ms s1, p ≤ frameEnd →
      decodeMatricesAux fuel frameEnd ⟨buf, p⟩ = .ok (ms, s1) →
      s1.data = buf ∧ s1.pos = frameEnd := by
  intro fuel
  induction fuel with
  | zero =>
    intro p ms s1 hp h
    rw [decodeMatricesAux] at h
    exact absurd h (by simp)
  | succ fuel ih =>
    intro p ms s1 hp h
    rw [decodeMatricesAux] at h
    by_cases hc1 : frameEnd ≤ (⟨buf, p⟩ : RState).pos
    · rw [if_pos hc1] at h
      injection h with h
      injection h with hms hs1
      subst hs1
      have h1 : frameEnd ≤ p := hc1
      refine ⟨rfl, ?_⟩
      show p = frameEnd
      omega
    · rw [if_neg hc1] at h
      by_cases hc2 : frameEnd - (⟨buf, p⟩ : RState).pos < 16
      · rw [if_pos hc2] at h
        cases hrb : readBytes (frameEnd - (⟨buf, p⟩ : RState).pos)
            ⟨buf, p⟩ with
        | error e =>
          simp only [hrb] at h
          exact absurd h (by simp)
        | ok v =>
          obtain ⟨bs, s2⟩ := v
          simp only [hrb] at h
          obtain ⟨-, -, hs2⟩ := readBytes_ok_inv _ _ _ _ hrb
          by_cases hz : bs.all (fun b => b == 0)
          · rw [if_pos hz] at h
            injection h with h
            injection h with hms hs1
            subst hs1
            subst hs2
            constructor
            · rfl
            · show p + (frameEnd - p) = frameEnd
              have : ¬ (frameEnd ≤ p) := hc1
              omega
          · rw [if_neg hz] at h
            exact absurd h (by simp)
      · rw [if_neg hc2] at h
        cases hdm : decodeMatrix frameEnd ⟨buf, p⟩ with
        | error e =>
          simp only [hdm] at h
          exact absurd h (by simp)
        | ok v =>
          obtain ⟨m, s2⟩ := v
          simp only [hdm] at h
          cases hrec : decodeMatricesAux fuel frameEnd s2 with
          | error e =>
            simp only [hrec] at h
            exact absurd h (by simp)
          | ok w =>
            obtain ⟨ms2, s3⟩ := w
            simp only [hrec] at h
            injection h with h
            injection h with hms hs1
            subst hs1
            obtain ⟨hdata, -, -, hleF, -, -⟩ :=
              decodeMatrix_ok frameEnd buf p m s2 hdm
            rw [rstate_eta s2 buf hdata] at hrec
            exact ih s2.pos ms2 s3 hleF hrec

/-- When the computed frame end lies beyond the data, the matrix loop can
only fail, with truncation or a size mismatch. -/
theorem decodeMatricesAux_overrun (buf : List Nat) (frameEnd : Nat)
    (hlt : buf.length < frameEnd) :
    ∀ fuel p, p ≤ buf.length → frameEnd - p + 16 ≤ 16 * fuel →
      decodeMatricesAux fuel frameEnd ⟨buf, p⟩ =
        .error .TruncatedInputError ∨
      decodeMatricesAux fuel frameEnd ⟨buf, p⟩ =
        .error .FrameSizeMismatchError := by
  intro fuel
  induction fuel with
  | zero =>
    intro p hp hfuel
    exact absurd hfuel (by omega)
  | succ fuel ih =>
    intro p hp hfuel
    have hc1 : ¬ (frameEnd ≤ (⟨buf, p⟩ : RState).pos) := by
      show ¬ (frameEnd ≤ p)
      omega
    rw [decodeMatricesAux, if_neg hc1]
    by_cases hc2 : frameEnd - (⟨buf, p⟩ : RState).pos < 16
    · rw [if_pos hc2]
      left
      rw [readBytes_err buf p (frameEnd - (⟨buf, p⟩ : RState).pos) (by
        show buf.length < p + (frameEnd - p)
        omega)]
    · rw [if_neg hc2]
      cases hdm : decodeMatrix frameEnd ⟨buf, p⟩ with
      | error e =>
        simp only [hdm]
        rcases decodeMatrix_err frameEnd buf p e hdm with he | he
        · subst he
          exact Or.inl rfl
        · subst he
          exact Or.inr rfl
      | ok v =>
        obtain ⟨m, s2⟩ := v
        simp only [hdm]
        obtain ⟨hdata, -, -, -, hleL, hge16⟩ :=
          decodeMatrix_ok frameEnd buf p m s2 hdm
        rw [rstate_eta s2 buf hdata]
        rcases ih s2.pos hleL (by omega) with h | h
        · rw [h]
          exact Or.inl rfl
        · rw [h]
          exact Or.inr rfl

/-- A frame whose 20-byte header does not fit in the remaining data fails
with truncation. -/
theorem decodeFrame_hdr_trunc (reg : List RegistryEntry) (buf : List Nat)
    (p : Nat) (hlt : buf.length < p + 20) :
    decodeFrame reg ⟨buf, p⟩ = .error .TruncatedInputError := by
  rcases Nat.lt_or_ge buf.length (p + 4) with hb | h4
  · simp only [decodeFrame, readTag4_err buf p hb]
  rcases Nat.lt_or_ge buf.length (p + 4 + 4) with hb | h8
  · simp only [decodeFrame, readTag4_eval buf p h4,
      readUint32_err buf (p + 4) hb]
  rcases Nat.lt_or_ge buf.length (p + 4 + 4 + 8) with hb | h16
  · simp only [decodeFrame, readTag4_eval buf p h4,
      readUint32_eval buf (p + 4) h8, readFloat64_err buf (p + 4 + 4) hb]
  simp only [decodeFrame, readTag4_eval buf p h4,
    readUint32_eval buf (p + 4) h8, readFloat64_eval buf (p + 4 + 4) h16,
    readUint32_err buf (p + 4 + 4 + 8) (by omega)]

/-- A frame whose header is intact but whose declared size reaches past the
end of the data fails with truncation or a size mismatch. -/
theorem decodeFrame_overrun (reg : List RegistryEntry) (buf : List Nat)
    (p size : Nat) (rest2 : List Nat)
    (hp20 : p + 20 ≤ buf.length)
    (hd : buf.drop (p + 4) = beBytes 4 size ++ rest2)
    (hs32 : size < 2 ^ 32)
    (hlt : buf.length < p + 20 + size) :
    decodeFrame reg ⟨buf, p⟩ = .error .TruncatedInputError ∨
    decodeFrame reg ⟨buf, p⟩ = .error .FrameSizeMismatchError := by
  have hu := readUint32_chunk buf (p + 4) size rest2 (by omega) hs32 hd
  simp only [decodeFrame, readTag4_eval buf p (by omega), hu.1,
    readFloat64_eval buf (p + 4 + 4) (by omega),
    readUint32_eval buf (p + 4 + 4 + 8) (by omega)]
  by_cases hk : knownTag reg ((buf.drop p).take 4) = true
  · rw [if_pos hk]
    have hov := decodeMatricesAux_overrun buf (p + 4 + 4 + 8 + 4 + size)
      (by omega) (size + 1) (p + 4 + 4 + 8 + 4) (by omega) (by omega)
    rcases hov with h | h
    · simp only [h]
      exact Or.inl trivial
    · simp only [h]
      exact Or.inr trivial
  · rw [if_neg hk]
    left
    simp only [readBytes_err buf (p + 4 + 4 + 8 + 4) size (by omega)]

/-! ### Session lemmas -/

theorem nextFrame_eof (reg : List RegistryEntry) (md : Mode) (rs : RState)
    (outb : List Nat) (h : rs.data.length ≤ rs.pos) :
    nextFrame reg ⟨.Opened md, rs, outb⟩ =
      (.ok none, ⟨.Opened md, rs, outb⟩) := by
  simp [nextFrame, h]

theorem nextFrame_decode_ok (reg : List RegistryEntry) (md : Mode)
    (rs : RState) (outb : List Nat) (f : Frame) (rs1 : RState)
    (hne : rs.pos < rs.data.length) (h : decodeFrame reg rs = .ok (f, rs1)) :
    nextFrame reg ⟨.Opened md, rs, outb⟩ =
      (.ok (some f), ⟨.Opened md, rs1, outb⟩) := by
  simp [nextFrame, h, Nat.not_le.mpr hne]

theorem nextFrame_decode_err (reg : List RegistryEntry) (md : Mode)
    (rs : RState) (outb : List Nat) (e : SdifError)
    (hne : rs.pos < rs.data.length) (h : decodeFrame reg rs = .error e) :
    nextFrame reg ⟨.Opened md, rs, outb⟩ =
      (.error e, ⟨.Closed, rs, outb⟩) := by
  simp [nextFrame, h, Nat.not_le.mpr hne]

/-- Repeatedly calling `nextFrame` over an encoded file yields exactly the
encoded frames and then stops cleanly. -/
theorem readFrames_chunk (reg : List RegistryEntry) (fs : List Frame)
    (buf : List Nat) (md : Mode) (outb : List Nat) :
    ∀ p fuel,
      (∀ f ∈ fs, validFrame reg f = true) → p ≤ buf.length →
      buf.drop p = (fs.map encodeFrame).flatten →
      fs.length < fuel →
      readFrames reg fuel ⟨.Opened md, ⟨buf, p⟩, outb⟩ = .ok fs := by
  induction fs with
  | nil =>
    intro p fuel hv hp hd hfuel
    match fuel, hfuel with
    | fuel + 1, _ =>
    have hEOF : buf.length ≤ p := by
      have hh := congrArg List.length hd
      simp only [List.length_drop, List.map_nil, List.flatten_nil,
        List.length_nil] at hh
      omega
    rw [readFrames]
    simp only [nextFrame_eof reg md ⟨buf, p⟩ outb hEOF]
  | cons f fs ih =>
    intro p fuel hv hp hd hfuel
    match fuel, hfuel with
    | fuel + 1, hfuel =>
    simp only [List.length_cons] at hfuel
    have hvf := hv f (by simp)
    have hvs : ∀ g ∈ fs, validFrame reg g = true :=
      fun g hg => hv g (by simp [hg])
    simp only [List.map_cons, List.flatten_cons] at hd
    have hne : p < buf.length := by
      have hh := congrArg List.length hd
      simp only [List.length_drop, List.length_append] at hh
      have h1 := encodeFrame_length_pos f
      omega
    have hchunk := decodeFrame_chunk reg f buf p ((fs.map encodeFrame).flatten)
      hvf (by omega) hd
    rw [readFrames]
    simp only [nextFrame_decode_ok reg md ⟨buf, p⟩ outb f
      ⟨buf, p + 20 + (encodeBody f.body).length⟩ hne hchunk.1]
    simp only [ih (p + 20 + (encodeBody f.body).length) fuel hvs
      hchunk.2.2 hchunk.2.1 (by omega)]

/-- One failing frame decode makes the frame loop fail with that error. -/
theorem decodeFileAux_err_step (reg : List RegistryEntry) (buf : List Nat)
    (p fuel : Nat) (e : SdifError) (hne : p < buf.length)
    (h : decodeFrame reg ⟨buf, p⟩ = .error e) :
    decodeFileAux reg (fuel + 1) ⟨buf, p⟩ = .error e := by
  have hc : ¬ ((⟨buf, p⟩ : RState).data.length ≤ (⟨buf, p⟩ : RState).pos) := by
    show ¬ (buf.length ≤ p)
    omega
  rw [decodeFileAux, if_neg hc]
  simp only [h]

/-- Truncating a valid file inside its last frame makes decoding fail with
`TruncatedInputError` or `FrameSizeMismatchError`. -/
theorem decodeFile_truncated (reg : List RegistryEntry) (fs : List Frame)
    (f : Frame) (k : Nat)
    (hv : ∀ g ∈ fs, validFrame reg g = true)
    (hvf : validFrame reg f = true)
    (hgt : (encode fs).length < k)
    (hlt : k < (encode (fs ++ [f])).length) :
    decodeFile reg ((encode (fs ++ [f])).take k) =
      .error .TruncatedInputError ∨
    decodeFile reg ((encode (fs ++ [f])).take k) =
      .error .FrameSizeMismatchError := by
  have ht4 : f.tag.length = 4 := (validFrame_eq_true reg f hvf).1
  have hsz32 : (encodeBody f.body).length < 2 ^ 32 :=
    (validFrame_eq_true reg f hvf).2.2.2.1
  have hfl : (encodeFrame f).length = 20 + (encodeBody f.body).length :=
    encodeFrame_length f ht4
  have hfile : encode (fs ++ [f]) = encode fs ++ encodeFrame f := by
    simp [encode]
  have hfull : (encode (fs ++ [f])).length =
      (encode fs).length + 20 + (encodeBody f.body).length := by
    rw [hfile, List.length_append, hfl]
    omega
  have hTlen : ((encode (fs ++ [f])).take k).length = k := by
    rw [List.length_take]
    omega
  have hTeq : (encode (fs ++ [f])).take k =
      encode fs ++ (encodeFrame f).take (k - (encode fs).length) := by
    rw [hfile, List.take_append_eq_append_take,
      List.take_of_length_le (by omega)]
  have hdrop0 : ((encode (fs ++ [f])).take k).drop 0 =
      (fs.map encodeFrame).flatten ++
        (encodeFrame f).take (k - (encode fs).length) := by
    rw [List.drop_zero, hTeq]
    rfl
  have hfsle : fs.length ≤ (encode fs).length :=
    flatten_encodeFrame_length_ge fs
  have hpre := decodeFileAux_prefix reg fs ((encode (fs ++ [f])).take k) 0
    (k + 1 - fs.length) ((encodeFrame f).take (k - (encode fs).length))
    hv (by omega) hdrop0
  have hQ : (0 : Nat) + ((fs.map encodeFrame).flatten).length =
      (encode fs).length := by
    simp [encode]
  rw [hQ] at hpre
  have hdP : ((encode (fs ++ [f])).take k).drop ((encode fs).length) =
      (encodeFrame f).take (k - (encode fs).length) := by
    rw [hTeq, List.drop_left]
  -- the frame decode at the truncation point fails
  have herr : decodeFrame reg ⟨(encode (fs ++ [f])).take k,
        (encode fs).length⟩ = .error .TruncatedInputError ∨
      decodeFrame reg ⟨(encode (fs ++ [f])).take k,
        (encode fs).length⟩ = .error .FrameSizeMismatchError := by
    rcases Nat.lt_or_ge k ((encode fs).length + 20) with hk20 | hk20
    · left
      exact decodeFrame_hdr_trunc reg ((encode (fs ++ [f])).take k)
        ((encode fs).length) (by rw [hTlen]; omega)
    · have hd4 : ((encode (fs ++ [f])).take k).drop ((encode fs).length + 4) =
          ((encodeFrame f).drop 4).take (k - (encode fs).length - 4) := by
        rw [← List.drop_drop, hdP, List.drop_take]
      have hencdrop : (encodeFrame f).drop 4 =
          beBytes 4 (encodeBody f.body).length ++
            (beBytes 8 f.time ++ (beBytes 4 f.streamId ++
              encodeBody f.body)) := by
        rw [encodeFrame]
        simp only [List.append_assoc]
        exact List.drop_left' ht4
      have hdT : ((encode (fs ++ [f])).take k).drop ((encode fs).length + 4) =
          beBytes 4 (encodeBody f.body).length ++
            ((beBytes 8 f.time ++ (beBytes 4 f.streamId ++
              encodeBody f.body)).take
              (k - (encode fs).length - 4 - 4)) := by
        rw [hd4, hencdrop, List.take_append_eq_append_take,
          List.take_of_length_le (by rw [beBytes_length]; omega),
          beBytes_length]
      exact decodeFrame_overrun reg ((encode (fs ++ [f])).take k)
        ((encode fs).length) ((encodeBody f.body).length) _
        (by rw [hTlen]; omega) hdT hsz32 (by rw [hTlen]; omega)
  have hstep : ∀ e : SdifError,
      decodeFrame reg ⟨(encode (fs ++ [f])).take k,
        (encode fs).length⟩ = .error e →
      decodeFile reg ((encode (fs ++ [f])).take k) = .error e := by
    intro e he
    have hne : (encode fs).length < ((encode (fs ++ [f])).take k).length := by
      rw [hTlen]
      omega
    obtain ⟨fuel1, hf1⟩ : ∃ m, k + 1 - fs.length = m + 1 :=
      ⟨k - fs.length, by omega⟩
    have hinner := decodeFileAux_err_step reg ((encode (fs ++ [f])).take k)
      ((encode fs).length) fuel1 e hne he
    rw [← hf1] at hinner
    rw [hinner] at hpre
    have heq : (k + 1 - fs.length) + fs.length = k + 1 := by omega
    rw [heq] at hpre
    rw [decodeFile, hTlen, hpre]
  rcases herr with he | he
  · exact Or.inl (hstep _ he)
  · exact Or.inr (hstep _ he)

/-- Inverting a successful frame decode: the cursor ends exactly at the
frame end computed from the declared size field. -/
theorem decodeFrame_ok (reg : List RegistryEntry) (buf : List Nat) (p : Nat)
    (f : Frame) (s2 : RState) (h : decodeFrame reg ⟨buf, p⟩ = .ok (f, s2)) :
    s2.data = buf ∧
    s2.pos = p + 20 + beVal ((buf.drop (p + 4)).take 4) := by
  rcases Nat.lt_or_ge buf.length (p + 4) with hb | h4
  · rw [decodeFrame, readTag4_err buf p hb] at h
    exact absurd h (by simp)
  rcases Nat.lt_or_ge buf.length (p + 4 + 4) with hb | h8
  · simp only [decodeFrame, readTag4_eval buf p h4,
      readUint32_err buf (p + 4) hb] at h
    exact absurd h (by simp)
  rcases Nat.lt_or_ge buf.length (p + 4 + 4 + 8) with hb | h16
  · simp only [decodeFrame, readTag4_eval buf p h4,
      readUint32_eval buf (p + 4) h8, readFloat64_err buf (p + 4 + 4) hb] at h
    exact absurd h (by simp)
  rcases Nat.lt_or_ge buf.length (p + 4 + 4 + 8 + 4) with hb | h20
  · simp only [decodeFrame, readTag4_eval buf p h4,
      readUint32_eval buf (p + 4) h8, readFloat64_eval buf (p + 4 + 4) h16,
      readUint32_err buf (p + 4 + 4 + 8) hb] at h
    exact absurd h (by simp)
  simp only [decodeFrame, readTag4_eval buf p h4,
    readUint32_eval buf (p + 4) h8, readFloat64_eval buf (p + 4 + 4) h16,
    readUint32_eval buf (p + 4 + 4 + 8) h20] at h
  by_cases hk : knownTag reg ((buf.drop p).take 4) = true
  · rw [if_pos hk] at h
    cases hma : decodeMatricesAux (beVal ((buf.drop (p + 4)).take 4) + 1)
        (p + 4 + 4 + 8 + 4 + beVal ((buf.drop (p + 4)).take 4))
        ⟨buf, p + 4 + 4 + 8 + 4⟩ with
    | error e =>
      simp only [hma] at h
      exact absurd h (by simp)
    | ok v =>
      obtain ⟨ms, s3⟩ := v
      simp only [hma] at h
      injection h with h
      injection h with hf hs2
      subst hs2
      have := decodeMatricesAux_ok
        (p + 4 + 4 + 8 + 4 + beVal ((buf.drop (p + 4)).take 4)) buf
        (beVal ((buf.drop (p + 4)).take 4) + 1) (p + 4 + 4 + 8 + 4) ms s3
        (by omega) hma
      refine ⟨this.1, ?_⟩
      omega
  · rw [if_neg hk] at h
    rcases Nat.lt_or_ge buf.length
        (p + 4 + 4 + 8 + 4 + beVal ((buf.drop (p + 4)).take 4)) with hb | hsz
    · simp only [readBytes_err buf (p + 4 + 4 + 8 + 4) _ hb] at h
      exact absurd h (by simp)
    · simp only [readBytes_ok buf (p + 4 + 4 + 8 + 4) _ hsz] at h
      injection h with h
      injection h with hf hs2
      subst hs2
      refine ⟨rfl, ?_⟩
      show p + 4 + 4 + 8 + 4 + beVal ((buf.drop (p + 4)).take 4) =
        p + 20 + beVal ((buf.drop (p + 4)).take 4)
      omega

/-- A matrix whose padded payload would read past the computed frame end is
rejected with `FrameSizeMismatchError`. -/
theorem decodeMatrix_mismatch (frameEnd : Nat) (buf : List Nat) (p : Nat)
    (h16 : p + 16 ≤ buf.length)
    (hcond : frameEnd < p + 16 +
      beVal ((buf.drop (p + 4 + 4)).take 4) *
        beVal ((buf.drop (p + 4 + 4 + 4)).take 4) *
        elemWidth (beVal ((buf.drop (p + 4)).take 4)) +
      pad8 (beVal ((buf.drop (p + 4 + 4)).take 4) *
        beVal ((buf.drop (p + 4 + 4 + 4)).take 4) *
        elemWidth (beVal ((buf.drop (p + 4)).take 4)))) :
    decodeMatrix frameEnd ⟨buf, p⟩ = .error .FrameSizeMismatchError := by
  simp only [decodeMatrix, readTag4_eval buf p (by omega),
    readUint32_eval buf (p + 4) (by omega),
    readUint32_eval buf (p + 4 + 4) (by omega),
    readUint32_eval buf (p + 4 + 4 + 4) (by omega)]
  rw [if_pos (by omega)]

/-- With a full matrix header's worth of room before the frame end, a matrix
decode error is the matrix loop's error. -/
theorem decodeMatricesAux_step_err (fuel frameEnd : Nat) (buf : List Nat)
    (p : Nat) (e : SdifError) (hc1 : p < frameEnd) (hc2 : 16 ≤ frameEnd - p)
    (h : decodeMatrix frameEnd ⟨buf, p⟩ = .error e) :
    decodeMatricesAux (fuel + 1) frameEnd ⟨buf, p⟩ = .error e := by
  have hb1 : ¬ (frameEnd ≤ (⟨buf, p⟩ : RState).pos) := by
    show ¬ (frameEnd ≤ p)
    omega
  have hb2 : ¬ (frameEnd - (⟨buf, p⟩ : RState).pos < 16) := by
    show ¬ (frameEnd - p < 16)
    omega
  rw [decodeMatricesAux, if_neg hb1, if_neg hb2]
  simp only [h]

/-- Non-zero bytes between the last matrix and the computed frame end are
rejected with `TrailingBytesError`. -/
theorem decodeMatricesAux_trailing (fuel frameEnd : Nat) (buf : List Nat)
    (p : Nat) (hc1 : p < frameEnd) (hc2 : frameEnd - p < 16)
    (hle : frameEnd ≤ buf.length)
    (hnz : ¬ (((buf.drop p).take (frameEnd - p)).all (fun b => b == 0) = true)) :
    decodeMatricesAux (fuel + 1) frameEnd ⟨buf, p⟩ =
      .error .TrailingBytesError := by
  have hb1 : ¬ (frameEnd ≤ (⟨buf, p⟩ : RState).pos) := by
    show ¬ (frameEnd ≤ p)
    omega
  have hb2 : frameEnd - (⟨buf, p⟩ : RState).pos < 16 := hc2
  rw [decodeMatricesAux, if_neg hb1, if_pos hb2]
  simp only [readBytes_ok buf p (frameEnd - (⟨buf, p⟩ : RState).pos)
    (by show p + (frameEnd - p) ≤ buf.length; omega)]
  rw [if_neg hnz]

/-- Any errored `nextFrame` call leaves the session in the `Closed` state. -/
theorem nextFrame_err_closed (reg : List RegistryEntry) (s : Session)
    (e : SdifError) (s2 : Session) (h : nextFrame reg s = (.error e, s2)) :
    s2.state = .Closed := by
  rw [nextFrame] at h
  cases hst : s.state with
  | Closed =>
    simp only [hst] at h
    injection h with h1 h2
    rw [← h2, hst]
  | Opened md =>
    simp only [hst] at h
    by_cases heof : s.rs.data.length ≤ s.rs.pos
    · rw [if_pos heof] at h
      injection h with h1 h2
      exact absurd h1 (by simp)
    · rw [if_neg heof] at h
      cases hdf : decodeFrame reg s.rs with
      | ok v =>
        obtain ⟨f, rs1⟩ := v
        simp only [hdf] at h
        injection h with h1 h2
        exact absurd h1 (by simp)
      | error e2 =>
        simp only [hdf] at h
        injection h with h1 h2
        rw [← h2]

/-! ## Part 6: concrete example data -/

/-- The spec's "1TRC"-style recognized tag, as its four ASCII bytes. -/
def tag1TRC : List Nat := [0x31, 0x54, 0x52, 0x43]

/-- A fabricated unrecognized tag ("XXXX"), absent from the registry. -/
def tagXXXX : List Nat := [0x58, 0x58, 0x58, 0x58]

/-- A 1-row, 2-column matrix of 2-byte elements (element type 0x0102). -/
def sampleMatrix : Matrix := ⟨tag1TRC, 0x0102, 1, 2, [1, 2, 3, 4]⟩

/-- A recognized frame holding `sampleMatrix`. -/
def sampleKnownFrame : Frame := ⟨tag1TRC, 5, 7, .matrices [sampleMatrix]⟩

/-- A frame with a fabricated unknown tag and an 8-byte opaque body. -/
def sampleUnknownFrame : Frame :=
  ⟨tagXXXX, 9, 1, .skipped [1, 2, 3, 4, 5, 6, 7, 8]⟩

/-- The empty marker frame: declared size 0, no matrices. -/
def emptyFrame : Frame := ⟨tag1TRC, 0, 0, .matrices []⟩

/-- A matrix declaring zero rows (element width 4). -/
def zeroRowsMatrix : Matrix := ⟨tag1TRC, 0x0104, 0, 5, []⟩

/-- A matrix declaring zero columns (element width 8). -/
def zeroColsMatrix : Matrix := ⟨tag1TRC, 0x0108, 3, 0, []⟩

/-- A frame holding only zero-row and zero-column matrices. -/
def zeroFrame : Frame :=
  ⟨tag1TRC, 0, 0, .matrices [zeroRowsMatrix, zeroColsMatrix]⟩

/-! ## Part 7: the claims -/

/-- C1: `src/sdif-sys/wrapper.h` is a single header of exactly 14 lines
whose sole function is to include `<sdif.h>`: preprocessing it from a fresh
state exposes exactly the declarations of `<sdif.h>` and defines exactly the
include-guard macro `WRAPPER_H`; no line of the header is a declaration of
its own, its only include is `<sdif.h>`, and its only macro definition is
`WRAPPER_H`. -/
theorem wrapper_is_pure_include_shim :
    wrapperLines.length = 14 ∧
    (∀ env : String → List String,
      includeWrapper env ⟨[], []⟩ = ⟨["WRAPPER_H"], env "sdif.h"⟩) ∧
    wrapperLines.all (fun l => match l with
      | .declLine _ => false
      | _ => true) = true ∧
    wrapperLines.filter (fun l => match l with
      | .includeSys _ => true
      | _ => false) = [.includeSys "sdif.h"] ∧
    wrapperLines.filter (fun l => match l with
      | .defineGuard _ => true
      | _ => false) = [.defineGuard "WRAPPER_H"] := by
  refine ⟨rfl, ?_, rfl, rfl, rfl⟩
  intro env
  rfl

/-- C10: including `wrapper.h` twice is the same as including it once — the
`WRAPPER_H` guard makes inclusion idempotent from every preprocessor state,
so `<sdif.h>` is pulled in at most once through this header. -/
theorem wrapper_include_idempotent :
    (∀ (env : String → List String) (st : PPState),
      includeWrapper env (includeWrapper env st) = includeWrapper env st) ∧
    (∀ env : String → List String,
      (includeWrapper env (includeWrapper env ⟨[], []⟩)).decls =
        env "sdif.h") := by
  constructor
  · intro env st
    by_cases h : "WRAPPER_H" ∈ st.defined
    · simp [includeWrapper, processFile, wrapperLines, step, h]
    · simp [includeWrapper, processFile, wrapperLines, step, h]
  · intro env
    rfl

/-- C2: for every valid in-memory sequence of Frames, decoding the encoding
yields exactly that sequence: `decode (encode F) = F`. -/
theorem frame_roundtrip (fs : List Frame)
    (hv : ∀ f ∈ fs, validFrame registry f = true) :
    decode (encode fs) = .ok fs :=
  decodeFile_encode registry fs hv

/-- Witness for C2 at a concrete two-frame sequence. -/
theorem frame_roundtrip_witness :
    (∀ f ∈ [sampleKnownFrame, sampleUnknownFrame],
      validFrame registry f = true) ∧
    decode (encode [sampleKnownFrame, sampleUnknownFrame]) =
      .ok [sampleKnownFrame, sampleUnknownFrame] :=
  ⟨by decide, frame_roundtrip [sampleKnownFrame, sampleUnknownFrame]
    (by decide)⟩

/-- C3: a frame whose tag is not in the registry but whose size field is
correct decodes without error into an opaque skipped Frame, and a file with
one recognized and one unrecognized-tag frame decodes to exactly one
interpreted Frame and one skipped Frame. -/
theorem unknown_tag_skipped :
    (∀ (tag bs : List Nat) (t sid : Nat),
      tag.length = 4 → knownTag registry tag = false →
      bs.length < 2 ^ 32 → t < 2 ^ 64 → sid < 2 ^ 32 →
      decode (encodeFrame ⟨tag, t, sid, .skipped bs⟩) =
        .ok [⟨tag, t, sid, .skipped bs⟩]) ∧
    decode (encode [sampleKnownFrame, sampleUnknownFrame]) =
      .ok [sampleKnownFrame, sampleUnknownFrame] ∧
    knownTag registry sampleKnownFrame.tag = true ∧
    knownTag registry sampleUnknownFrame.tag = false ∧
    sampleKnownFrame.body = .matrices [sampleMatrix] ∧
    sampleUnknownFrame.body = .skipped [1, 2, 3, 4, 5, 6, 7, 8] := by
  refine ⟨?_, by rfl, by rfl, by rfl, by rfl, by rfl⟩
  intro tag bs t sid h4 hk h32 ht64 hs32
  have hv : validFrame registry ⟨tag, t, sid, .skipped bs⟩ = true := by
    simp [validFrame, validBody, encodeBody, hk, h4, h32, ht64, hs32]
    norm_num at h32 ht64 hs32 ⊢
    omega
  have h := decodeFile_encode registry [⟨tag, t, sid, .skipped bs⟩] (by
    intro g hg
    simp only [List.mem_singleton] at hg
    subst hg
    exact hv)
  have henc : encode [(⟨tag, t, sid, FrameBody.skipped bs⟩ : Frame)] =
      encodeFrame ⟨tag, t, sid, FrameBody.skipped bs⟩ := by
    simp [encode]
  rw [henc] at h
  exact h

/-- Witness for C3's universally quantified part at a concrete unknown-tag
frame. -/
theorem unknown_tag_skipped_witness :
    decode (encodeFrame ⟨tagXXXX, 3, 2, .skipped [1, 2, 3]⟩) =
      .ok [⟨tagXXXX, 3, 2, .skipped [1, 2, 3]⟩] :=
  unknown_tag_skipped.1 tagXXXX [1, 2, 3] 3 2 (by decide) (by decide)
    (by decide) (by decide) (by decide)

/-- C4: after `close()`, both `nextFrame` and `writeFrame` fail with
`SessionClosedError`, and the session stays closed, so every subsequent
call keeps failing the same way. -/
theorem closed_session_rejects_ops (reg : List RegistryEntry) (s : Session)
    (f : Frame) :
    (nextFrame reg (close s)).1 = .error .SessionClosedError ∧
    (writeFrame (close s) f).1 = .error .SessionClosedError ∧
    (nextFrame reg (close s)).2.state = .Closed ∧
    (writeFrame (close s) f).2.state = .Closed :=
  ⟨rfl, rfl, rfl, rfl⟩

/-- C5: each read primitive advances the cursor by exactly its byte width
on success and fails with `TruncatedInputError` when fewer bytes remain;
truncating a valid file inside its last frame makes decoding fail with
`TruncatedInputError` (or `FrameSizeMismatchError` when detected
mid-matrix), never crash or silently succeed. -/
theorem read_primitives_contract :
    (∀ (buf : List Nat) (p n : Nat),
      (p + n ≤ buf.length →
        readBytes n ⟨buf, p⟩ = .ok ((buf.drop p).take n, ⟨buf, p + n⟩)) ∧
      (buf.length < p + n →
        readBytes n ⟨buf, p⟩ = .error .TruncatedInputError)) ∧
    (∀ (buf : List Nat) (p : Nat),
      (p + 4 ≤ buf.length →
        readUint32 ⟨buf, p⟩ =
          .ok (beVal ((buf.drop p).take 4), ⟨buf, p + 4⟩)) ∧
      (buf.length < p + 4 →
        readUint32 ⟨buf, p⟩ = .error .TruncatedInputError)) ∧
    (∀ (buf : List Nat) (p : Nat),
      (p + 8 ≤ buf.length →
        readFloat64 ⟨buf, p⟩ =
          .ok (beVal ((buf.drop p).take 8), ⟨buf, p + 8⟩)) ∧
      (buf.length < p + 8 →
        readFloat64 ⟨buf, p⟩ = .error .TruncatedInputError)) ∧
    (∀ (buf : List Nat) (p : Nat),
      (p + 4 ≤ buf.length →
        readTag4 ⟨buf, p⟩ = .ok ((buf.drop p).take 4, ⟨buf, p + 4⟩)) ∧
      (buf.length < p + 4 →
        readTag4 ⟨buf, p⟩ = .error .TruncatedInputError)) ∧
    (∀ (fs : List Frame) (f : Frame) (k : Nat),
      (∀ g ∈ fs, validFrame registry g = true) →
      validFrame registry f = true →
      (encode fs).length < k → k < (encode (fs ++ [f])).length →
      decode ((encode (fs ++ [f])).take k) = .error .TruncatedInputError ∨
      decode ((encode (fs ++ [f])).take k) =
        .error .FrameSizeMismatchError) := by
  refine ⟨?_, ?_, ?_, ?_, ?_⟩
  · intro buf p n
    exact ⟨readBytes_ok buf p n, readBytes_err buf p n⟩
  · intro buf p
    exact ⟨readUint32_eval buf p, readUint32_err buf p⟩
  · intro buf p
    exact ⟨readFloat64_eval buf p, readFloat64_err buf p⟩
  · intro buf p
    exact ⟨readTag4_eval buf p, readTag4_err buf p⟩
  · intro fs f k hv hvf h1 h2
    exact decodeFile_truncated registry fs f k hv hvf h1 h2

/-- Witness for C5 at concrete streams, including a file truncated inside
its only frame. -/
theorem read_primitives_contract_witness :
    readBytes 2 ⟨[7, 9], 0⟩ = .ok ([7, 9], ⟨[7, 9], 2⟩) ∧
    readUint32 ⟨[0, 0, 1, 2], 0⟩ = .ok (258, ⟨[0, 0, 1, 2], 4⟩) ∧
    readFloat64 ⟨[9], 0⟩ = .error .TruncatedInputError ∧
    readTag4 ⟨[1, 2], 0⟩ = .error .TruncatedInputError ∧
    (decode ((encode ([] ++ [sampleKnownFrame])).take 30) =
        .error .TruncatedInputError ∨
      decode ((encode ([] ++ [sampleKnownFrame])).take 30) =
        .error .FrameSizeMismatchError) :=
  ⟨(read_primitives_contract.1 [7, 9] 0 2).1 (by decide),
   (read_primitives_contract.2.1 [0, 0, 1, 2] 0).1 (by decide),
   (read_primitives_contract.2.2.1 [9] 0).2 (by decide),
   (read_primitives_contract.2.2.2.1 [1, 2] 0).2 (by decide),
   read_primitives_contract.2.2.2.2 [] sampleKnownFrame 30
     (by simp) (by decide) (by decide) (by decide)⟩

/-- C6: frame decoding reads the header, computes the frame end as the
cursor plus the declared size, and loops reading matrices until the cursor
reaches that end; a matrix whose padded payload would pass the frame end
fails with `FrameSizeMismatchError` (and that matrix error is the loop's
error), and non-padding bytes between the last matrix and the frame end
fail with `TrailingBytesError`. -/
theorem frame_decode_algorithm :
    (∀ (reg : List RegistryEntry) (buf : List Nat) (p : Nat) (f : Frame)
        (s2 : RState),
      decodeFrame reg ⟨buf, p⟩ = .ok (f, s2) →
      s2.pos = p + 20 + beVal ((buf.drop (p + 4)).take 4)) ∧
    (∀ (frameEnd : Nat) (buf : List Nat) (fuel p : Nat) (ms : List Matrix)
        (s1 : RState),
      p ≤ frameEnd →
      decodeMatricesAux fuel frameEnd ⟨buf, p⟩ = .ok (ms, s1) →
      s1.pos = frameEnd) ∧
    (∀ (frameEnd : Nat) (buf : List Nat) (p : Nat),
      p + 16 ≤ buf.length →
      frameEnd < p + 16 +
        beVal ((buf.drop (p + 4 + 4)).take 4) *
          beVal ((buf.drop (p + 4 + 4 + 4)).take 4) *
          elemWidth (beVal ((buf.drop (p + 4)).take 4)) +
        pad8 (beVal ((buf.drop (p + 4 + 4)).take 4) *
          beVal ((buf.drop (p + 4 + 4 + 4)).take 4) *
          elemWidth (beVal ((buf.drop (p + 4)).take 4))) →
      decodeMatrix frameEnd ⟨buf, p⟩ = .error .FrameSizeMismatchError) ∧
    (∀ (fuel frameEnd : Nat) (buf : List Nat) (p : Nat) (e : SdifError),
      p < frameEnd → 16 ≤ frameEnd - p →
      decodeMatrix frameEnd ⟨buf, p⟩ = .error e →
      decodeMatricesAux (fuel + 1) frameEnd ⟨buf, p⟩ = .error e) ∧
    (∀ (fuel frameEnd : Nat) (buf : List Nat) (p : Nat),
      p < frameEnd → frameEnd - p < 16 → frameEnd ≤ buf.length →
      ¬ (((buf.drop p).take (frameEnd - p)).all (fun b => b == 0) = true) →
      decodeMatricesAux (fuel + 1) frameEnd ⟨buf, p⟩ =
        .error .TrailingBytesError) := by
  refine ⟨?_, ?_, ?_, ?_, ?_⟩
  · intro reg buf p f s2 h
    exact (decodeFrame_ok reg buf p f s2 h).2
  · intro frameEnd buf fuel p ms s1 hp h
    exact (decodeMatricesAux_ok frameEnd buf fuel p ms s1 hp h).2
  · intro frameEnd buf p h16 hcond
    exact decodeMatrix_mismatch frameEnd buf p h16 hcond
  · intro fuel frameEnd buf p e hc1 hc2 h
    exact decodeMatricesAux_step_err fuel frameEnd buf p e hc1 hc2 h
  · intro fuel frameEnd buf p hc1 hc2 hle hnz
    exact decodeMatricesAux_trailing fuel frameEnd buf p hc1 hc2 hle hnz

/-- Witness for C6 at concrete inputs: a decoded empty frame ends at its
computed frame end, an oversized matrix is rejected, that rejection is the
loop's error, and garbage trailing bytes are rejected. -/
theorem frame_decode_algorithm_witness :
    ((⟨encodeFrame emptyFrame, 20⟩ : RState).pos =
      0 + 20 + beVal (((encodeFrame emptyFrame).drop (0 + 4)).take 4)) ∧
    ((⟨([] : List Nat), 0⟩ : RState).pos = 0) ∧
    decodeMatrix 16
        ⟨[0, 0, 0, 0, 0, 0, 0, 1, 0, 0, 0, 8, 0, 0, 0, 8], 0⟩ =
      .error .FrameSizeMismatchError ∧
    decodeMatricesAux 1 16
        ⟨[0, 0, 0, 0, 0, 0, 0, 1, 0, 0, 0, 8, 0, 0, 0, 8], 0⟩ =
      .error .FrameSizeMismatchError ∧
    decodeMatricesAux 1 4 ⟨[9, 9, 9, 9], 0⟩ = .error .TrailingBytesError :=
  ⟨frame_decode_algorithm.1 registry (encodeFrame emptyFrame) 0 emptyFrame
      ⟨encodeFrame emptyFrame, 20⟩ (by rfl),
   frame_decode_algorithm.2.1 0 [] 1 0 [] ⟨[], 0⟩ (by decide) (by rfl),
   frame_decode_algorithm.2.2.1 16
      [0, 0, 0, 0, 0, 0, 0, 1, 0, 0, 0, 8, 0, 0, 0, 8] 0 (by decide)
      (by decide),
   frame_decode_algorithm.2.2.2.1 0 16
      [0, 0, 0, 0, 0, 0, 0, 1, 0, 0, 0, 8, 0, 0, 0, 8] 0
      .FrameSizeMismatchError (by decide) (by decide) (by rfl),
   frame_decode_algorithm.2.2.2.2 0 4 [9, 9, 9, 9] 0 (by decide) (by decide)
      (by decide) (by decide)⟩

/-- C7: for every successfully decoded frame the declared size equals the
body bytes actually consumed (padding included), and for every decoded
matrix the payload length is rows × columns × the element width determined
by the type tag, with the padded consumption reflected in the cursor. -/
theorem frame_size_invariant :
    (∀ (reg : List RegistryEntry) (buf : List Nat) (p : Nat) (f : Frame)
        (s2 : RState),
      decodeFrame reg ⟨buf, p⟩ = .ok (f, s2) →
      s2.pos - (p + 20) = beVal ((buf.drop (p + 4)).take 4)) ∧
    (∀ (frameEnd : Nat) (buf : List Nat) (p : Nat) (m : Matrix)
        (s1 : RState),
      decodeMatrix frameEnd ⟨buf, p⟩ = .ok (m, s1) →
      m.payload.length = m.rows * m.cols * elemWidth m.elemType ∧
      s1.pos = p + 16 + m.payload.length + pad8 m.payload.length) := by
  constructor
  · intro reg buf p f s2 h
    have := (decodeFrame_ok reg buf p f s2 h).2
    omega
  · intro frameEnd buf p m s1 h
    obtain ⟨-, hpl, hpos, -, -, -⟩ := decodeMatrix_ok frameEnd buf p m s1 h
    exact ⟨by rw [hpl]; rfl, hpos⟩

/-- Witness for C7 at a concrete frame and matrix decode. -/
theorem frame_size_invariant_witness :
    ((⟨encode [sampleKnownFrame], 44⟩ : RState).pos - (0 + 20) =
      beVal (((encode [sampleKnownFrame]).drop (0 + 4)).take 4)) ∧
    (sampleMatrix.payload.length =
      sampleMatrix.rows * sampleMatrix.cols *
        elemWidth sampleMatrix.elemType ∧
    (⟨encode [sampleKnownFrame], 44⟩ : RState).pos =
      20 + 16 + sampleMatrix.payload.length +
        pad8 sampleMatrix.payload.length) :=
  ⟨frame_size_invariant.1 registry (encode [sampleKnownFrame]) 0
      sampleKnownFrame ⟨encode [sampleKnownFrame], 44⟩ (by rfl),
   frame_size_invariant.2 44 (encode [sampleKnownFrame]) 20 sampleMatrix
      ⟨encode [sampleKnownFrame], 44⟩ (by rfl)⟩

/-- C8: a frame declaring size 0 and zero matrices is valid — it decodes to
a Frame with an empty matrix sequence and re-encodes byte-identically — and
matrices declaring zero rows or zero columns are valid and contribute zero
payload bytes. -/
theorem empty_frame_and_zero_matrices :
    (encodeFrame emptyFrame).length = 20 ∧
    beVal (((encodeFrame emptyFrame).drop 4).take 4) = 0 ∧
    decode (encodeFrame emptyFrame) = .ok [emptyFrame] ∧
    encode [emptyFrame] = encodeFrame emptyFrame ∧
    emptyFrame.body = .matrices [] ∧
    zeroRowsMatrix.rows = 0 ∧ matPayloadLen zeroRowsMatrix = 0 ∧
    zeroColsMatrix.cols = 0 ∧ matPayloadLen zeroColsMatrix = 0 ∧
    (encodeMatrix zeroRowsMatrix).length = 16 ∧
    validFrame registry zeroFrame = true ∧
    decode (encode [zeroFrame]) = .ok [zeroFrame] := by
  refine ⟨rfl, rfl, by rfl, rfl, rfl, rfl, rfl, rfl, rfl, rfl, by decide,
    by rfl⟩

/-- C9: a decode error during `nextFrame` is surfaced immediately with no
frame result, the session is forced to `Closed` (subsequent operations fail
with `SessionClosedError`), and reading a well-formed encoded file yields
all its frames and then terminates cleanly at end-of-stream. -/
theorem session_error_and_eos :
    (∀ (reg : List RegistryEntry) (s : Session) (e : SdifError)
        (s2 : Session),
      nextFrame reg s = (.error e, s2) → s2.state = .Closed) ∧
    (∀ (reg : List RegistryEntry) (s : Session) (e : SdifError)
        (s2 : Session) (f : Frame),
      nextFrame reg s = (.error e, s2) →
      (nextFrame reg s2).1 = .error .SessionClosedError ∧
      (writeFrame s2 f).1 = .error .SessionClosedError) ∧
    (∀ (reg : List RegistryEntry) (md : Mode) (rs : RState)
        (outb : List Nat),
      rs.data.length ≤ rs.pos →
      nextFrame reg ⟨.Opened md, rs, outb⟩ =
        (.ok none, ⟨.Opened md, rs, outb⟩)) ∧
    (∀ fs : List Frame, (∀ f ∈ fs, validFrame registry f = true) →
      readAll registry (encode fs) = .ok fs) := by
  refine ⟨?_, ?_, ?_, ?_⟩
  · intro reg s e s2 h
    exact nextFrame_err_closed reg s e s2 h
  · intro reg s e s2 f h
    have hcl := nextFrame_err_closed reg s e s2 h
    constructor
    · simp only [nextFrame, hcl]
    · simp only [writeFrame, hcl]
  · intro reg md rs outb h
    exact nextFrame_eof reg md rs outb h
  · intro fs hv
    have hge : fs.length ≤ (encode fs).length :=
      flatten_encodeFrame_length_ge fs
    exact readFrames_chunk registry fs (encode fs) .Reading [] 0
      ((encode fs).length + 1) hv (by omega) (by simp [encode])
      (by omega)

/-- Witness for C9: a one-byte stream errors with truncation and closes the
session; subsequent calls fail with `SessionClosedError`; end-of-stream and
a full two-frame read behave as stated. -/
theorem session_error_and_eos_witness :
    ((⟨.Closed, ⟨[1], 0⟩, []⟩ : Session).state = .Closed) ∧
    ((nextFrame registry ⟨.Closed, ⟨[1], 0⟩, []⟩).1 =
        .error .SessionClosedError ∧
      (writeFrame ⟨.Closed, ⟨[1], 0⟩, []⟩ emptyFrame).1 =
        .error .SessionClosedError) ∧
    nextFrame registry ⟨.Opened .Reading, ⟨[5], 1⟩, []⟩ =
      (.ok none, ⟨.Opened .Reading, ⟨[5], 1⟩, []⟩) ∧
    readAll registry (encode [sampleKnownFrame, sampleUnknownFrame]) =
      .ok [sampleKnownFrame, sampleUnknownFrame] :=
  ⟨session_error_and_eos.1 registry ⟨.Opened .Reading, ⟨[1], 0⟩, []⟩
      .TruncatedInputError ⟨.Closed, ⟨[1], 0⟩, []⟩ (by rfl),
   session_error_and_eos.2.1 registry ⟨.Opened .Reading, ⟨[1], 0⟩, []⟩
      .TruncatedInputError ⟨.Closed, ⟨[1], 0⟩, []⟩ emptyFrame (by rfl),
   session_error_and_eos.2.2.1 registry .Reading ⟨[5], 1⟩ [] (by decide),
   session_error_and_eos.2.2.2 [sampleKnownFrame, sampleUnknownFrame]
      (by decide)⟩

end Sdif
